import Mathlib

/-!
# Verification of the spotify-history ingestion/backfill pipeline

Shallow embedding of `scripts/supabase_store.py`, `scripts/fetch_history.py`
and `scripts/backfill_artist_metadata.py`, together with theorems settling the
frozen claims about the spec.

Modelling conventions:
* Python dict lookups with `.get` become `Option`-valued fields.
* Python truthiness of a string (`if artist_id:`) is `none`/empty-string
  falsity, modelled by `strTruthy`.
* Database tables are association lists of rows keyed by their unique key;
  timestamps are abstract integers.
* Network calls are oracles `List String → Except String (List ArtistObj)`;
  an `Except.error` models a raised exception for that call.
-/

namespace SpotifyHistory

/-- Python truthiness for an optional string: `None` and `""` are falsy. -/
def strTruthy : Option String → Bool
  | none => false
  | some s => s ≠ ""

/-! ## Upstream JSON data model (§6 of the spec) -/

/-- One element of an artist object's `images` array: `{url, height}`.
Either field may be absent/null. -/
structure SpotifyImage where
  url : Option String
  height : Option Int
  deriving DecidableEq, Repr

/-- A full artist entity from the batch lookup endpoint:
`{id, name, images[], external_urls{spotify}, genres[], popularity}`. -/
structure ArtistObj where
  id : Option String
  name : Option String
  images : List SpotifyImage
  external_urls_spotify : Option String
  genres : List String
  popularity : Option Int
  deriving DecidableEq, Repr

/-- An artist reference inside `track.artists` (only `id`/`name` are read). -/
structure ArtistRef where
  id : Option String
  name : Option String
  deriving DecidableEq, Repr

/-- The track object of a history item. -/
structure TrackObj where
  id : Option String
  name : Option String
  duration_ms : Option Int
  explicit : Option Bool
  artists : List ArtistRef
  album_name : Option String
  deriving DecidableEq, Repr

/-- One element of the history response's `items` array. -/
structure PlayItem where
  track : TrackObj
  played_at : Option String
  context_uri : Option String
  deriving DecidableEq, Repr

/-- The recently-played history response: `{items: [...]}`. -/
structure SpotifyResponse where
  items : List PlayItem
  deriving DecidableEq, Repr

/-! ## `extract_artist_ids` (supabase_store.py lines 96-112) -/

/-- The id contributed by one item: the first artist's `id`, when the item has
artists and that id is truthy.  Mirrors the body of the `for` loop in
`extract_artist_ids`. -/
def firstArtistId (item : PlayItem) : Option String :=
  match item.track.artists with
  | [] => none
  | a :: _ =>
    match a.id with
    | none => none
    | some s => if s = "" then none else some s

/-- `extract_artist_ids(response)`: the unique first-artist ids of a response.
The Python function builds a `set`; we model it as the deduplicated list of
contributed ids (set-level facts are stated via `toFinset`). -/
def extract_artist_ids (r : SpotifyResponse) : List String :=
  (r.items.filterMap firstArtistId).dedup

/-- The set of first-artist identifiers referenced in a response, as the spec
describes it (§4.3 mode A): one optional contribution per item. -/
def referencedFirstArtistIds (r : SpotifyResponse) : Finset String :=
  (r.items.filterMap firstArtistId).toFinset

/-! ## `parse_artist_data` (supabase_store.py lines 124-153) -/

/-- The sort key used for images: `x.get("height", 0) or 0`, i.e. a missing or
null height counts as 0. -/
def imageKey (i : SpotifyImage) : Int := i.height.getD 0

/-- Insertion step of a stable descending sort on `imageKey`: an element is
placed before the first element whose key is not larger, so that among equal
keys the earlier input element stays first (Python's `sorted` is stable, and
`reverse=True` preserves the order of equal elements). -/
def insertImageDesc (x : SpotifyImage) : List SpotifyImage → List SpotifyImage
  | [] => [x]
  | y :: ys => if imageKey x < imageKey y then y :: insertImageDesc x ys else x :: y :: ys

/-- `sorted(images, key=..., reverse=True)` as a stable insertion sort. -/
def sortImagesDesc : List SpotifyImage → List SpotifyImage
  | [] => []
  | x :: xs => insertImageDesc x (sortImagesDesc xs)

/-- The record produced by `parse_artist_data`. -/
structure ParsedArtist where
  artist_id : Option String
  artist_name : Option String
  image_url : Option String
  spotify_url : Option String
  genres : List String
  popularity : Option Int
  deriving DecidableEq, Repr

/-- `parse_artist_data(artist)`: pick the url of the first image of the
height-descending stable sort (none if there are no images), the
`external_urls.spotify` link, genres as given, popularity verbatim. -/
def parse_artist_data (a : ArtistObj) : ParsedArtist :=
  let image_url :=
    match sortImagesDesc a.images with
    | [] => none
    | top :: _ => top.url
  { artist_id := a.id
    artist_name := a.name
    image_url := image_url
    spotify_url := a.external_urls_spotify
    genres := a.genres
    popularity := a.popularity }

/-- Specification-side description of the selected image: the first image in
input order attaining the maximum `imageKey`. -/
def firstMaxImage : List SpotifyImage → Option SpotifyImage
  | [] => none
  | x :: xs =>
    match firstMaxImage xs with
    | none => some x
    | some m => some (if imageKey x < imageKey m then m else x)

/-! ## `fetch_artist_metadata` (supabase_store.py lines 156-177) -/

/-- `artist_ids[i : i + n]` slices visited by `range(0, len(artist_ids), n)`:
consecutive chunks of size `n`, the last one possibly shorter. -/
def chunksOf (n : Nat) (l : List α) : List (List α) :=
  match l with
  | [] => []
  | x :: xs =>
    if h : n = 0 then []
    else (x :: xs).take n :: chunksOf n ((x :: xs).drop n)
termination_by l.length
decreasing_by
  rw [List.length_drop]
  exact Nat.sub_lt (by simp) (Nat.pos_of_ne_zero h)

/-- The per-entity keep-or-drop step of the fetch loop: parse the entity and
keep it only when `parsed["artist_id"]` is truthy. -/
def keepParsed (a : ArtistObj) : Option ParsedArtist :=
  let parsed := parse_artist_data a
  if strTruthy parsed.artist_id then some parsed else none

/-- Observable outcome of `fetch_artist_metadata`: the aggregated parsed
records, the warnings written to stderr, and the number of upstream lookup
calls (`client.artists`) that were made. -/
structure FetchResult where
  artists : List ParsedArtist
  warnings : List String
  calls : Nat
  deriving DecidableEq, Repr

/-- One iteration of the batch loop of `fetch_artist_metadata`: call the
client on the batch; on success append the parsed entities that have a truthy
id; on exception append a warning and continue. -/
def fetchBatchStep (oracle : List String → Except String (List ArtistObj))
    (acc : FetchResult) (batch : List String) : FetchResult :=
  match oracle batch with
  | Except.ok resp_artists =>
    { acc with
      artists := acc.artists ++ resp_artists.filterMap keepParsed
      calls := acc.calls + 1 }
  | Except.error e =>
    { acc with
      warnings := acc.warnings ++ ["Warning: Failed to fetch artist metadata for batch: " ++ e]
      calls := acc.calls + 1 }

/-- `fetch_artist_metadata(client, artist_ids)`: early return on an empty id
list, otherwise fold the batch loop over the 50-chunks of the id list. -/
def fetch_artist_metadata (oracle : List String → Except String (List ArtistObj))
    (artist_ids : List String) : FetchResult :=
  if artist_ids.isEmpty then ⟨[], [], 0⟩
  else (chunksOf 50 artist_ids).foldl (fetchBatchStep oracle) ⟨[], [], 0⟩

/-- The parsed records one batch contributes to the fetcher's output: the
kept entities on success, nothing on a failed call. -/
def perBatchArtists (oracle : List String → Except String (List ArtistObj))
    (batch : List String) : List ParsedArtist :=
  match oracle batch with
  | Except.ok resp_artists => resp_artists.filterMap keepParsed
  | Except.error _ => []

/-- The warning one batch contributes: none on success. -/
def perBatchWarning (oracle : List String → Except String (List ArtistObj))
    (batch : List String) : Option String :=
  match oracle batch with
  | Except.ok _ => none
  | Except.error e => some ("Warning: Failed to fetch artist metadata for batch: " ++ e)

/-! ## The relational store (§3 of the spec, tables `artists` / `raw_history`) -/

/-- A row of the `staging.artists` table.  `artist_id` is the unique key;
nullable columns are `Option`; timestamps are abstract integers. -/
structure DBArtistRow where
  artist_id : String
  artist_name : Option String
  image_url : Option String
  spotify_url : Option String
  genres : Option (List String)
  popularity : Option Int
  first_seen_at : Int
  last_updated_at : Int
  updated_at : Int
  deriving DecidableEq, Repr

/-- `SELECT ... WHERE artist_id = aid` with `fetchone()`. -/
def findRow (db : List DBArtistRow) (aid : String) : Option DBArtistRow :=
  db.find? (fun r => r.artist_id = aid)

/-- `get_existing_artist_ids(cursor, schema)`: the set of ids in the
`artists` table, modelled as the deduplicated list of row keys. -/
def existingArtistIds (db : List DBArtistRow) : List String :=
  (db.map (fun r => r.artist_id)).dedup

/-- One `cursor.execute(upsert_sql, ...)` of `upsert_artists`
(supabase_store.py lines 180-218): insert, or on conflict on `artist_id`
update every column except `first_seen_at`.  A record whose `artist_id` is
null is never produced by the pipeline (the fetcher filters them out) and
would be rejected by the store's key constraint; it is modelled as a no-op. -/
def upsertArtistOne (now : Int) (db : List DBArtistRow) (rec : ParsedArtist) :
    List DBArtistRow :=
  match rec.artist_id with
  | none => db
  | some aid =>
    if db.any (fun r => r.artist_id = aid) then
      db.map (fun r =>
        if r.artist_id = aid then
          { r with
            artist_name := rec.artist_name
            image_url := rec.image_url
            spotify_url := rec.spotify_url
            genres := some rec.genres
            popularity := rec.popularity
            last_updated_at := now
            updated_at := now }
        else r)
    else
      db ++ [{ artist_id := aid
               artist_name := rec.artist_name
               image_url := rec.image_url
               spotify_url := rec.spotify_url
               genres := some rec.genres
               popularity := rec.popularity
               first_seen_at := now
               last_updated_at := now
               updated_at := now }]

/-- `upsert_artists(cursor, schema, artists)`: the loop over the records, all
sharing one `now = datetime.now(timezone.utc)` timestamp. -/
def upsert_artists (now : Int) (db : List DBArtistRow) (recs : List ParsedArtist) :
    List DBArtistRow :=
  recs.foldl (upsertArtistOne now) db

/-- A row of the append-only `raw.raw_history` table. -/
structure RawEntry where
  collected_at : Int
  payload : SpotifyResponse
  deriving DecidableEq, Repr

/-- The relational store as seen by the pipeline. -/
structure Store where
  artists : List DBArtistRow
  raw_history : List RawEntry
  deriving DecidableEq, Repr

/-! ## `save_response` (supabase_store.py lines 221-268) -/

/-- `list(artist_ids - existing_ids)` in `save_response`: the mode-A fetch
set, the extracted first-artist ids minus the ids already in `artists`. -/
def save_fetch_set (resp : SpotifyResponse) (db : List DBArtistRow) : List String :=
  (extract_artist_ids resp).filter (fun a => decide (a ∉ existingArtistIds db))

/-- The artist-metadata block of `save_response` (lines 237-257), when it runs
to completion: extract the ids, early-exit on an empty extraction, diff
against the ids already stored, early-exit on an empty diff, batch-fetch the
new ids and upsert whatever came back.  Returns the updated table state, the
warnings and the number of upstream lookup calls. -/
def metaBlock (oracle : List String → Except String (List ArtistObj)) (now : Int)
    (resp : SpotifyResponse) (st : Store) : Store × List String × Nat :=
  let aids := extract_artist_ids resp
  if aids.isEmpty then (st, [], 0)
  else
    let newIds := save_fetch_set resp st.artists
    if newIds.isEmpty then (st, [], 0)
    else
      let fr := fetch_artist_metadata oracle newIds
      if fr.artists.isEmpty then (st, fr.warnings, fr.calls)
      else ({ st with artists := upsert_artists now st.artists fr.artists },
            fr.warnings, fr.calls)

/-- Fault injection for one `save_response` run.  `metaRaises` models an
exception raised inside the metadata block before any of its writes (e.g.
`extract_artist_ids` failing on malformed items); such an exception is caught
by the inner `except` and degraded to a warning.  A metadata *database*
failure would poison the enclosing transaction and surface as
`rawInsertFails` as well.  `rawInsertFails` / `commitFails` model the
raw-payload `INSERT` or the final `commit()` raising, which escapes to the
outer `except` and aborts the run. -/
structure Faults where
  metaRaises : Bool
  rawInsertFails : Bool
  commitFails : Bool
  deriving DecidableEq, Repr

/-- Observable outcome of one `save_response` run: the store state that is
actually persisted after the run (the initial state when the transaction was
rolled back), whether the run succeeded (no exception escaped), the warnings,
and the number of metadata fetch calls made. -/
structure RunResult where
  persisted : Store
  ok : Bool
  warnings : List String
  fetchCalls : Nat
  deriving DecidableEq, Repr

/-- The warning written when the metadata block raises (line 260). -/
def metaWarning : String := "Warning: Failed to process artist metadata"

/-- `save_response(response, spotify_client)` with a connected client: run the
metadata block (catching its exceptions as a warning), insert the raw
payload, commit.  All writes live in one transaction: an uncaught exception
rolls everything back, so the persisted state is the initial one and the run
reports failure. -/
def save_response_run (oracle : List String → Except String (List ArtistObj))
    (faults : Faults) (now : Int) (resp : SpotifyResponse) (st : Store) : RunResult :=
  let metaOut :=
    if faults.metaRaises then (st, [metaWarning], 0)
    else metaBlock oracle now resp st
  if faults.rawInsertFails then ⟨st, false, metaOut.2.1, metaOut.2.2⟩
  else
    let st2 := { metaOut.1 with raw_history := metaOut.1.raw_history ++ [⟨now, resp⟩] }
    if faults.commitFails then ⟨st, false, metaOut.2.1, metaOut.2.2⟩
    else ⟨st2, true, metaOut.2.1, metaOut.2.2⟩

/-! ## `backfill_artist_metadata.py` -/

/-- `get_artists_missing_metadata(cursor, schema)` (lines 48-59): the ids of
rows with a null `image_url`, `genres` or `popularity`.  The `ORDER BY
first_seen_at DESC` of the query is dropped: no claim depends on the order of
this list, only on its members. -/
def get_artists_missing_metadata (db : List DBArtistRow) : List String :=
  (db.filter (fun r => r.image_url.isNone || r.genres.isNone || r.popularity.isNone)).map
    (fun r => r.artist_id)

/-- The `(name, id)` pair the SQL of `get_artists_from_listening_history`
derives from one history item: the first artist of the track, kept when both
its `name` and `id` are non-null (`IS NOT NULL` does not drop empty strings,
unlike Python truthiness in `extract_artist_ids`). -/
def firstArtistPair (item : PlayItem) : Option (String × String) :=
  match item.track.artists with
  | [] => none
  | a :: _ =>
    match a.name, a.id with
    | some n, some i => some (n, i)
    | _, _ => none

/-- `get_artists_from_listening_history(cursor, schema)` (lines 62-93): the
distinct first-artist `(name, id)` pairs over every payload of the raw log.
`SELECT DISTINCT` is modelled by `dedup`; the `ORDER BY artist_name` only
fixes a presentation order no claim depends on. -/
def get_artists_from_listening_history (rawLog : List SpotifyResponse) :
    List (String × String) :=
  ((rawLog.map (fun r => r.items)).flatten.filterMap firstArtistPair).dedup

/-- The per-id test of the loop in `backfill_artists` (lines 143-160): an id
absent from the `artists` table needs a fetch; an id present needs one
exactly when its row has a null `image_url`, `genres` or `popularity`. -/
def needsFetch (db : List DBArtistRow) (aid : String) : Bool :=
  match findRow db aid with
  | none => true
  | some row => row.image_url.isNone || row.genres.isNone || row.popularity.isNone

/-- `artists_to_fetch` as accumulated by the loop in `backfill_artists`. -/
def artistsToFetch (db : List DBArtistRow) (history : List (String × String)) :
    List (String × String) :=
  history.filter (fun p => needsFetch db p.2)

/-- `artist_ids_to_fetch` as accumulated by the loop in `backfill_artists`. -/
def artistIdsToFetch (db : List DBArtistRow) (history : List (String × String)) :
    List String :=
  (artistsToFetch db history).map (fun p => p.2)

/-- Externally visible side effects of a backfill run. -/
inductive BackfillEffect where
  | fetchCall (batch : List String)
  | upsertWrite (recs : List ParsedArtist)
  | commitTxn
  deriving DecidableEq, Repr

/-- Observable outcome of `backfill_artists`: the side effects performed and
the lines printed (progress prints inside the fetch loop are elided; the
claims only concern the dry-run preview and the nothing-to-do message). -/
structure BackfillRun where
  effects : List BackfillEffect
  output : List String
  deriving DecidableEq, Repr

/-- One dry-run preview line: `  [NEW|UPDATE] name (id)` (line 170-172). -/
def previewLine (db : List DBArtistRow) (p : String × String) : String :=
  let status := if (findRow db p.2).isNone then "NEW" else "UPDATE"
  "  [" ++ status ++ "] " ++ p.1 ++ " (" ++ p.2 ++ ")"

/-- `backfill_artists(dry_run)` (lines 105-215), given the store contents and
a fetch oracle: compute the history pairs and the fetch set; stop with a
message when the fetch set is empty; in dry-run mode print the first 20
members plus a remainder count and stop without any effect; otherwise fetch
each 50-batch (each batch is one upstream call), upsert whatever came back,
and commit once at the end. -/
def backfill_artists (oracle : List String → Except String (List ArtistObj))
    (dry_run : Bool) (st : Store) : BackfillRun :=
  let history := get_artists_from_listening_history (st.raw_history.map (fun e => e.payload))
  let toFetch := artistsToFetch st.artists history
  let ids := toFetch.map (fun p => p.2)
  if ids.isEmpty then
    ⟨[], ["No artists need metadata. All good!"]⟩
  else if dry_run then
    ⟨[],
      ["[DRY RUN] Would fetch metadata for:"] ++
        (toFetch.take 20).map (previewLine st.artists) ++
        (if 20 < toFetch.length then
          ["  ... and " ++ toString (toFetch.length - 20) ++ " more"]
        else [])⟩
  else
    let effs := (chunksOf 50 ids).foldl
      (fun acc batch =>
        let fr := fetch_artist_metadata oracle batch
        acc ++ [BackfillEffect.fetchCall batch] ++
          (if fr.artists.isEmpty then [] else [BackfillEffect.upsertWrite fr.artists]))
      []
    ⟨effs ++ [BackfillEffect.commitTxn], []⟩

/-! ## Play-event transformer and upserter

The repository under `src/` contains no Payload Transformer or play-event
Upsert Writer; the definitions of this section are modelled from the spec
(§3 PlayEvent, §4.2, §4.5). -/

/-- Modelled from the spec: a PlayEvent row (§3), keyed uniquely by
`played_at`. -/
structure PlayEvent where
  played_at : String
  track_id : Option String
  track_name : Option String
  artist_names : String
  album_name : Option String
  duration_ms : Option Int
  explicit : Option Bool
  context_uri : Option String
  deriving DecidableEq, Repr

/-- Modelled from the spec: the per-item step of the Payload Transformer
(§4.2), missing from `src/`.  One candidate row per item, `artist_names`
joining all artist display names with `", "` and skipping artists without a
name; items without `played_at` are dropped. -/
def toPlayEvent (item : PlayItem) : Option PlayEvent :=
  match item.played_at with
  | none => none
  | some ts =>
    some { played_at := ts
           track_id := item.track.id
           track_name := item.track.name
           artist_names := String.intercalate ", " (item.track.artists.filterMap (fun a => a.name))
           album_name := item.track.album_name
           duration_ms := item.track.duration_ms
           explicit := item.track.explicit
           context_uri := item.context_uri }

/-- Modelled from the spec: deduplication by `played_at` with the last
occurrence in input order winning (§4.2), missing from `src/`.  A row is kept
exactly when no later row carries the same `played_at`. -/
def dedupLastWins : List PlayEvent → List PlayEvent
  | [] => []
  | r :: rs =>
    if rs.any (fun r2 => r2.played_at = r.played_at) then dedupLastWins rs
    else r :: dedupLastWins rs

/-- Modelled from the spec: the Payload Transformer (§4.2), missing from
`src/`: flatten the items to candidate rows, then deduplicate by `played_at`
keeping the last occurrence. -/
def transformResponse (r : SpotifyResponse) : List PlayEvent :=
  dedupLastWins (r.items.filterMap toPlayEvent)

/-- Modelled from the spec: one insert-or-replace-on-conflict by `played_at`
(§4.5 `upsertPlayEvents`), missing from `src/`. -/
def upsertPlayEventOne (tbl : List PlayEvent) (row : PlayEvent) : List PlayEvent :=
  if tbl.any (fun r => r.played_at = row.played_at) then
    tbl.map (fun r => if r.played_at = row.played_at then row else r)
  else tbl ++ [row]

/-- Modelled from the spec: `upsertPlayEvents(rows)` (§4.5), missing from
`src/`: apply the rows in order, each insert-or-replace by `played_at`;
a no-op for empty input. -/
def upsertPlayEvents (tbl : List PlayEvent) (rows : List PlayEvent) : List PlayEvent :=
  rows.foldl upsertPlayEventOne tbl

/-! ## `fetch_history.py` `main` (lines 110-115) -/

/-- `limit = max(1, min(args.limit, 50))`: the page-size limit actually passed
to `current_user_recently_played`. -/
def clampLimit (limit : Int) : Int := max 1 (min limit 50)

/-! ## Helper lemmas -/

theorem chunksOf_nil (n : Nat) : chunksOf n ([] : List α) = [] := by
  simp [chunksOf]

theorem chunksOf_eq_cons (n : Nat) (hn : n ≠ 0) (l : List α) (hne : l ≠ []) :
    chunksOf n l = l.take n :: chunksOf n (l.drop n) := by
  cases l with
  | nil => exact absurd rfl hne
  | cons x xs => rw [chunksOf]; simp [hn]

theorem chunksOf_of_length_le (n : Nat) (hn : n ≠ 0) (l : List α) (hne : l ≠ [])
    (hle : l.length ≤ n) : chunksOf n l = [l] := by
  rw [chunksOf_eq_cons n hn l hne, List.take_of_length_le hle,
    List.drop_eq_nil_of_le hle, chunksOf_nil]

theorem chunksOf_length_51 (l : List α) (h : l.length = 51) :
    chunksOf 50 l = [l.take 50, l.drop 50] := by
  have hne : l ≠ [] := by intro e; rw [e] at h; simp at h
  have hd : (l.drop 50).length = 1 := by rw [List.length_drop, h]
  rw [chunksOf_eq_cons 50 (by norm_num) l hne]
  congr 1
  refine chunksOf_of_length_le 50 (by norm_num) _ ?_ (by omega)
  intro e
  rw [e] at hd
  simp at hd

theorem foldl_fetchBatchStep (oracle : List String → Except String (List ArtistObj))
    (batches : List (List String)) (acc : FetchResult) :
    batches.foldl (fetchBatchStep oracle) acc =
      ⟨acc.artists ++ (batches.map (perBatchArtists oracle)).flatten,
       acc.warnings ++ batches.filterMap (perBatchWarning oracle),
       acc.calls + batches.length⟩ := by
  induction batches generalizing acc with
  | nil => simp
  | cons b bs ih =>
    rw [List.foldl_cons, ih]
    cases h : oracle b with
    | ok as =>
      simp [fetchBatchStep, perBatchArtists, perBatchWarning, h]
      omega
    | error e =>
      simp [fetchBatchStep, perBatchArtists, perBatchWarning, h]
      omega

/-! ## Claim C10: the page-size limit is clamped into 1..50 -/

/-- C10: for every integer `--limit` value, the limit passed upstream is
`max 1 (min limit 50)`, which always lies in `1..50`, and the clamp is the
identity on values already in `1..50`. -/
theorem limit_clamped_to_valid_range (l : Int) :
    clampLimit l = max 1 (min l 50) ∧ 1 ≤ clampLimit l ∧ clampLimit l ≤ 50 ∧
      (1 ≤ l → l ≤ 50 → clampLimit l = l) := by
  unfold clampLimit
  exact ⟨rfl, by omega, by omega, fun h1 h2 => by omega⟩

theorem limit_clamped_to_valid_range_witness : clampLimit 7 = 7 ∧ clampLimit 99 ≤ 50 :=
  ⟨(limit_clamped_to_valid_range 7).2.2.2 (by norm_num) (by norm_num),
   (limit_clamped_to_valid_range 99).2.2.1⟩

/-! ## Claim C6: 50-chunking and per-batch fault tolerance -/

/-- C6: the fetcher splits the id sequence into consecutive chunks of 50 (the
last possibly smaller), so 51 ids give chunks of 50 and 1; each chunk costs
exactly one upstream call, and the output and warnings are the independent
concatenation of each chunk's contribution — a failing chunk yields a warning
and does not stop later chunks from being processed. -/
theorem fetch_artist_metadata_chunks_and_tolerates_failures :
    (∀ l : List String, l.length = 51 →
      chunksOf 50 l = [l.take 50, l.drop 50] ∧
        (l.take 50).length = 50 ∧ (l.drop 50).length = 1) ∧
    (∀ (oracle : List String → Except String (List ArtistObj)) (ids : List String),
      ids ≠ [] →
      (fetch_artist_metadata oracle ids).calls = (chunksOf 50 ids).length ∧
      (fetch_artist_metadata oracle ids).artists
        = ((chunksOf 50 ids).map (perBatchArtists oracle)).flatten ∧
      (fetch_artist_metadata oracle ids).warnings
        = (chunksOf 50 ids).filterMap (perBatchWarning oracle)) := by
  constructor
  · intro l h
    refine ⟨chunksOf_length_51 l h, ?_, ?_⟩
    · rw [List.length_take]; omega
    · rw [List.length_drop]; omega
  · intro oracle ids hne
    have hni : ¬ ids.isEmpty := by simpa using hne
    unfold fetch_artist_metadata
    rw [if_neg hni, foldl_fetchBatchStep]
    simp

theorem fetch_artist_metadata_chunks_witness :
    ((List.range 51).map toString).length = 51 ∧
    chunksOf 50 ((List.range 51).map toString)
      = [((List.range 51).map toString).take 50, ((List.range 51).map toString).drop 50] ∧
    (fetch_artist_metadata (fun _ => Except.error "down") ["a"]).calls
      = (chunksOf 50 ["a"]).length :=
  ⟨by simp,
   (fetch_artist_metadata_chunks_and_tolerates_failures.1 _ (by simp)).1,
   (fetch_artist_metadata_chunks_and_tolerates_failures.2 _ ["a"] (by simp)).1⟩

/-! ## Claim C8: entities missing the id field are silently excluded -/

/-- C8: an entity whose `id` is missing is dropped without aborting, an
entity with a (truthy) id is kept as its parsed record, and a successful
batch contributes exactly the kept entities, so the output can be shorter
than the input. -/
theorem fetch_excludes_entities_missing_id :
    (∀ a : ArtistObj, a.id = none → keepParsed a = none) ∧
    (∀ (a : ArtistObj) (s : String), a.id = some s → s ≠ "" →
      keepParsed a = some (parse_artist_data a)) ∧
    (∀ (oracle : List String → Except String (List ArtistObj))
      (ids : List String) (as : List ArtistObj),
      ids ≠ [] → ids.length ≤ 50 → oracle ids = Except.ok as →
      (fetch_artist_metadata oracle ids).artists = as.filterMap keepParsed ∧
      (as.filterMap keepParsed).length ≤ as.length) := by
  refine ⟨?_, ?_, ?_⟩
  · intro a h
    simp [keepParsed, parse_artist_data, strTruthy, h]
  · intro a s h hs
    simp [keepParsed, parse_artist_data, strTruthy, h, hs]
  · intro oracle ids as hne hle hok
    have hni : ¬ ids.isEmpty := by simpa using hne
    have hch : chunksOf 50 ids = [ids] := chunksOf_of_length_le 50 (by norm_num) ids hne hle
    constructor
    · unfold fetch_artist_metadata
      rw [if_neg hni, hch]
      simp [fetchBatchStep, hok]
    · exact List.length_filterMap_le _ _

theorem fetch_excludes_entities_missing_id_witness :
    keepParsed ⟨none, some "NN", [], none, [], none⟩ = none ∧
    (fetch_artist_metadata
        (fun _ => Except.ok [⟨none, some "NN", [], none, [], none⟩,
          ⟨some "a1", some "A", [], none, [], some 5⟩])
        ["a1", "a2"]).artists
      = [⟨none, some "NN", [], none, [], none⟩,
          ⟨some "a1", some "A", [], none, [], some 5⟩].filterMap keepParsed :=
  ⟨fetch_excludes_entities_missing_id.1 _ rfl,
   (fetch_excludes_entities_missing_id.2.2 _ ["a1", "a2"] _ (by simp) (by simp) rfl).1⟩

/-! ## Claim C5: the largest image wins, first max on ties -/

theorem head?_insertImageDesc (x : SpotifyImage) (l : List SpotifyImage) :
    (insertImageDesc x l).head? =
      some (match l with
            | [] => x
            | y :: _ => if imageKey x < imageKey y then y else x) := by
  cases l with
  | nil => rfl
  | cons y ys =>
    simp only [insertImageDesc]
    split <;> simp_all

theorem head?_sortImagesDesc (l : List SpotifyImage) :
    (sortImagesDesc l).head? = firstMaxImage l := by
  induction l with
  | nil => rfl
  | cons x xs ih =>
    simp only [sortImagesDesc, firstMaxImage]
    rw [head?_insertImageDesc]
    cases hs : sortImagesDesc xs with
    | nil =>
      have hm : firstMaxImage xs = none := by rw [← ih, hs]; rfl
      rw [hm]
    | cons y ys =>
      have hm : firstMaxImage xs = some y := by rw [← ih, hs]; rfl
      rw [hm]

theorem firstMaxImage_eq_none {l : List SpotifyImage} (h : firstMaxImage l = none) :
    l = [] := by
  cases l with
  | nil => rfl
  | cons x xs =>
    simp only [firstMaxImage] at h
    cases hm : firstMaxImage xs <;> simp [hm] at h

/-- The element `firstMaxImage` returns is the first element of the list
attaining the maximal `imageKey`: everything before it is strictly smaller,
everything after it is no larger. -/
theorem firstMaxImage_spec :
    ∀ (l : List SpotifyImage) (m : SpotifyImage), firstMaxImage l = some m →
      ∃ pre post, l = pre ++ m :: post ∧ (∀ i ∈ pre, imageKey i < imageKey m) ∧
        (∀ i ∈ post, imageKey i ≤ imageKey m) := by
  intro l
  induction l with
  | nil => intro m h; simp [firstMaxImage] at h
  | cons x xs ih =>
    intro m h
    simp only [firstMaxImage] at h
    cases hm : firstMaxImage xs with
    | none =>
      rw [hm] at h
      have hxs : xs = [] := firstMaxImage_eq_none hm
      refine ⟨[], [], ?_, by simp, by simp⟩
      simp only [Option.some.injEq] at h
      rw [hxs, ← h]
      rfl
    | some m' =>
      rw [hm] at h
      simp only [Option.some.injEq] at h
      obtain ⟨pre, post, heq, hpre, hpost⟩ := ih m' hm
      by_cases hlt : imageKey x < imageKey m'
      · rw [if_pos hlt] at h
        subst h
        refine ⟨x :: pre, post, by rw [heq]; rfl, ?_, hpost⟩
        intro i hi
        rcases List.mem_cons.mp hi with h1 | h2
        · rw [h1]; exact hlt
        · exact hpre i h2
      · rw [if_neg hlt] at h
        subst h
        push_neg at hlt
        refine ⟨[], xs, rfl, by simp, ?_⟩
        intro i hi
        rw [heq] at hi
        rcases List.mem_append.mp hi with h1 | h2
        · exact le_trans (le_of_lt (hpre i h1)) hlt
        · rcases List.mem_cons.mp h2 with h3 | h4
          · rw [h3]; exact hlt
          · exact le_trans (hpost i h4) hlt

/-- C5: `parse_artist_data` derives `image_url` from the first image
attaining the greatest height (missing heights count as 0), is null when the
entity has no images, and on heights `[64, 300, 300]` picks the first
height-300 image's url. -/
theorem parse_artist_image_first_max_height :
    (∀ a : ArtistObj, a.images = [] → (parse_artist_data a).image_url = none) ∧
    (∀ a : ArtistObj, a.images ≠ [] →
      ∃ m pre post, a.images = pre ++ m :: post ∧
        (∀ i ∈ pre, imageKey i < imageKey m) ∧
        (∀ i ∈ post, imageKey i ≤ imageKey m) ∧
        (parse_artist_data a).image_url = m.url) ∧
    (parse_artist_data
        { id := some "a1", name := some "A",
          images := [⟨some "u64", some 64⟩, ⟨some "u300a", some 300⟩,
            ⟨some "u300b", some 300⟩],
          external_urls_spotify := none, genres := [], popularity := none }).image_url
      = some "u300a" := by
  refine ⟨?_, ?_, by decide⟩
  · intro a h
    simp [parse_artist_data, h, sortImagesDesc]
  · intro a h
    cases hm : firstMaxImage a.images with
    | none => exact absurd (firstMaxImage_eq_none hm) h
    | some m =>
      obtain ⟨pre, post, heq, hpre, hpost⟩ := firstMaxImage_spec a.images m hm
      refine ⟨m, pre, post, heq, hpre, hpost, ?_⟩
      have hh : (sortImagesDesc a.images).head? = some m := by
        rw [head?_sortImagesDesc, hm]
      simp only [parse_artist_data]
      cases hs : sortImagesDesc a.images with
      | nil => rw [hs] at hh; simp at hh
      | cons top rest =>
        rw [hs] at hh
        simp only [List.head?_cons, Option.some.injEq] at hh
        rw [hh]

theorem parse_artist_image_first_max_height_witness :
    (parse_artist_data ⟨some "a1", some "A", [], none, [], none⟩).image_url = none ∧
    ∃ m pre post,
      ([⟨some "u1", some 7⟩, ⟨some "u2", some 9⟩] : List SpotifyImage) = pre ++ m :: post ∧
      (∀ i ∈ pre, imageKey i < imageKey m) ∧
      (∀ i ∈ post, imageKey i ≤ imageKey m) ∧
      (parse_artist_data ⟨some "a1", some "A",
          [⟨some "u1", some 7⟩, ⟨some "u2", some 9⟩], none, [], none⟩).image_url = m.url :=
  ⟨parse_artist_image_first_max_height.1 _ rfl,
   parse_artist_image_first_max_height.2.1
     ⟨some "a1", some "A", [⟨some "u1", some 7⟩, ⟨some "u2", some 9⟩], none, [], none⟩
     (by simp)⟩

/-! ## Claim C2: mode-A fetch set is referenced minus present -/

theorem toFinset_save_fetch_set (resp : SpotifyResponse) (db : List DBArtistRow) :
    (save_fetch_set resp db).toFinset
      = referencedFirstArtistIds resp \ (db.map (fun r => r.artist_id)).toFinset := by
  ext a
  simp [save_fetch_set, extract_artist_ids, referencedFirstArtistIds, existingArtistIds,
    List.mem_filter]

/-- C2: in fresh ingestion the fetch set is exactly the referenced
first-artist ids minus the ids already stored; when every referenced id is
already present the fetch set is empty and the run makes no metadata fetch
call. -/
theorem mode_a_fetch_set_is_referenced_minus_present :
    (∀ (resp : SpotifyResponse) (db : List DBArtistRow),
      (save_fetch_set resp db).toFinset
        = referencedFirstArtistIds resp \ (db.map (fun r => r.artist_id)).toFinset) ∧
    (∀ (oracle : List String → Except String (List ArtistObj)) (faults : Faults)
      (now : Int) (resp : SpotifyResponse) (st : Store),
      referencedFirstArtistIds resp ⊆ (st.artists.map (fun r => r.artist_id)).toFinset →
      save_fetch_set resp st.artists = [] ∧
      (save_response_run oracle faults now resp st).fetchCalls = 0) := by
  refine ⟨toFinset_save_fetch_set, ?_⟩
  intro oracle faults now resp st hsub
  have hempty : save_fetch_set resp st.artists = [] := by
    rw [← List.toFinset_eq_empty_iff, toFinset_save_fetch_set]
    exact Finset.sdiff_eq_empty_iff_subset.mpr hsub
  refine ⟨hempty, ?_⟩
  have hmb : (metaBlock oracle now resp st).2.2 = 0 := by
    by_cases he : (extract_artist_ids resp).isEmpty
    · simp [metaBlock, he]
    · simp [metaBlock, he, hempty]
  obtain ⟨mr, rf, cf⟩ := faults
  cases mr <;> cases rf <;> cases cf <;> simp [save_response_run, hmb]

theorem mode_a_fetch_set_witness :
    save_fetch_set
        ⟨[⟨⟨none, none, none, none, [⟨some "a1", some "A"⟩], none⟩, some "t1", none⟩]⟩
        [⟨"a1", some "A", none, none, none, none, 0, 0, 0⟩] = [] ∧
    (save_response_run (fun _ => Except.ok []) ⟨false, false, false⟩ 0
        ⟨[⟨⟨none, none, none, none, [⟨some "a1", some "A"⟩], none⟩, some "t1", none⟩]⟩
        ⟨[⟨"a1", some "A", none, none, none, none, 0, 0, 0⟩], []⟩).fetchCalls = 0 :=
  mode_a_fetch_set_is_referenced_minus_present.2 (fun _ => Except.ok []) ⟨false, false, false⟩ 0
    ⟨[⟨⟨none, none, none, none, [⟨some "a1", some "A"⟩], none⟩, some "t1", none⟩]⟩
    ⟨[⟨"a1", some "A", none, none, none, none, 0, 0, 0⟩], []⟩ (by decide)

/-! ## Claim C1: transactional atomicity of `save_response` -/

/-- C1 counterexample: a run in which the artist-metadata step fails (an
exception inside the metadata block, caught at supabase_store.py line 258)
still inserts and commits the raw payload and reports success — refuting
"if any step of the run fails, every write of that run is rolled back and
the run reports failure". -/
theorem save_response_meta_failure_commits_raw :
    (save_response_run (fun _ => Except.ok []) ⟨true, false, false⟩ 0 ⟨[]⟩ ⟨[], []⟩).ok
      = true ∧
    (save_response_run (fun _ => Except.ok []) ⟨true, false, false⟩ 0 ⟨[]⟩ ⟨[], []⟩).persisted
      = ⟨[], [⟨0, ⟨[]⟩⟩]⟩ ∧
    (save_response_run (fun _ => Except.ok []) ⟨true, false, false⟩ 0 ⟨[]⟩ ⟨[], []⟩).warnings
      = [metaWarning] :=
  ⟨rfl, rfl, rfl⟩

/-- C1 (amended): the single transaction is all-or-nothing — a run that
reports failure persists nothing — but a failure inside the artist-metadata
block is caught and degraded to a warning: such a run still commits the raw
payload (without the metadata writes) and reports success. -/
theorem save_response_commit_atomicity :
    (∀ (oracle : List String → Except String (List ArtistObj)) (faults : Faults)
      (now : Int) (resp : SpotifyResponse) (st : Store),
      (save_response_run oracle faults now resp st).ok = false →
      (save_response_run oracle faults now resp st).persisted = st) ∧
    (∀ (oracle : List String → Except String (List ArtistObj))
      (now : Int) (resp : SpotifyResponse) (st : Store),
      (save_response_run oracle ⟨true, false, false⟩ now resp st).ok = true ∧
      (save_response_run oracle ⟨true, false, false⟩ now resp st).persisted
        = { st with raw_history := st.raw_history ++ [⟨now, resp⟩] } ∧
      (save_response_run oracle ⟨true, false, false⟩ now resp st).warnings
        = [metaWarning]) := by
  constructor
  · intro oracle faults now resp st
    obtain ⟨mr, rf, cf⟩ := faults
    cases mr <;> cases rf <;> cases cf <;> simp [save_response_run]
  · intro oracle now resp st
    exact ⟨rfl, rfl, rfl⟩

theorem save_response_commit_atomicity_witness :
    (save_response_run (fun _ => Except.ok []) ⟨false, true, false⟩ 0 ⟨[]⟩ ⟨[], []⟩).persisted
      = ⟨[], []⟩ :=
  save_response_commit_atomicity.1 _ _ 0 _ _ rfl

/-! ## Claim C4: upsert overwrites all fields except `first_seen_at` -/

theorem find?_map_id_preserving (db : List DBArtistRow) (aid : String)
    (f : DBArtistRow → DBArtistRow) (hf : ∀ r, (f r).artist_id = r.artist_id) :
    (db.map f).find? (fun r => r.artist_id = aid)
      = (db.find? (fun r => r.artist_id = aid)).map f := by
  induction db with
  | nil => rfl
  | cons r rs ih =>
    simp only [List.map_cons, List.find?_cons]
    by_cases h : r.artist_id = aid
    · simp [hf r, h]
    · simp [hf r, h, ih]

theorem upsertArtistOne_preserves_first_seen (now : Int) (db : List DBArtistRow)
    (rec : ParsedArtist) (aid : String) (r : DBArtistRow)
    (hfind : findRow db aid = some r) :
    ∃ r', findRow (upsertArtistOne now db rec) aid = some r' ∧
      r'.first_seen_at = r.first_seen_at := by
  cases hid : rec.artist_id with
  | none => simp only [upsertArtistOne, hid]; exact ⟨r, hfind, rfl⟩
  | some bid =>
    simp only [upsertArtistOne, hid]
    by_cases hany : db.any (fun row => row.artist_id = bid)
    · rw [if_pos hany]
      unfold findRow
      rw [find?_map_id_preserving db aid _ (fun row => by split <;> rfl)]
      rw [show db.find? (fun row => row.artist_id = aid) = some r from hfind]
      simp only [Option.map_some']
      exact ⟨_, rfl, by split <;> rfl⟩
    · rw [if_neg hany]
      refine ⟨r, ?_, rfl⟩
      unfold findRow
      rw [List.find?_append]
      rw [show db.find? (fun row => row.artist_id = aid) = some r from hfind]
      rfl

/-- C4: upserting a record whose id is already present overwrites
`artist_name`, `image_url`, `spotify_url`, `genres`, `popularity` and sets
`last_updated_at`/`updated_at` to the current time while keeping the stored
`first_seen_at`; and no sequence of upserts ever changes the `first_seen_at`
of a row that is present. -/
theorem upsert_artists_preserves_first_seen_at :
    (∀ (db : List DBArtistRow) (rec : ParsedArtist) (now : Int) (aid : String)
      (r : DBArtistRow), rec.artist_id = some aid → findRow db aid = some r →
      findRow (upsert_artists now db [rec]) aid
        = some { artist_id := aid, artist_name := rec.artist_name,
                 image_url := rec.image_url, spotify_url := rec.spotify_url,
                 genres := some rec.genres, popularity := rec.popularity,
                 first_seen_at := r.first_seen_at, last_updated_at := now,
                 updated_at := now }) ∧
    (∀ (db : List DBArtistRow) (recs : List ParsedArtist) (now : Int) (aid : String)
      (r : DBArtistRow), findRow db aid = some r →
      ∃ r', findRow (upsert_artists now db recs) aid = some r' ∧
        r'.first_seen_at = r.first_seen_at) := by
  constructor
  · intro db rec now aid r hid hfind
    have hr : r.artist_id = aid := by
      have := List.find?_some hfind
      simpa using this
    have hmem : r ∈ db := List.mem_of_find?_eq_some hfind
    have hany : db.any (fun row => row.artist_id = aid) = true := by
      rw [List.any_eq_true]
      exact ⟨r, hmem, by simp [hr]⟩
    unfold upsert_artists
    rw [List.foldl_cons, List.foldl_nil]
    simp only [upsertArtistOne, hid]
    rw [if_pos hany]
    unfold findRow
    rw [find?_map_id_preserving db aid _ (fun row => by split <;> rfl)]
    rw [show db.find? (fun row => row.artist_id = aid) = some r from hfind]
    simp only [Option.map_some']
    rw [if_pos (by simp [hr])]
    obtain ⟨rid, rn, ri, ru, rg, rp, rf, rl, rua⟩ := r
    simp only at hr
    subst hr
    rfl
  · intro db recs now aid r hfind
    induction recs generalizing db r with
    | nil => exact ⟨r, hfind, rfl⟩
    | cons rec recs ih =>
      obtain ⟨r'', hfind'', hfs''⟩ :=
        upsertArtistOne_preserves_first_seen now db rec aid r hfind
      obtain ⟨r', hfind', hfs'⟩ := ih _ _ hfind''
      exact ⟨r', hfind', by rw [hfs', hfs'']⟩

theorem upsert_artists_preserves_first_seen_at_witness :
    findRow
        (upsert_artists 9 [⟨"a1", some "Old", none, none, none, none, 5, 5, 5⟩]
          [⟨some "a1", some "New", some "img", some "url", ["pop"], some 10⟩]) "a1"
      = some ⟨"a1", some "New", some "img", some "url", some ["pop"], some 10, 5, 9, 9⟩ :=
  upsert_artists_preserves_first_seen_at.1
    [⟨"a1", some "Old", none, none, none, none, 5, 5, 5⟩]
    ⟨some "a1", some "New", some "img", some "url", ["pop"], some 10⟩ 9 "a1"
    ⟨"a1", some "Old", none, none, none, none, 5, 5, 5⟩ rfl rfl

/-! ## Claim C3: the backfill fetch set -/

/-- C3 counterexample: a row with null metadata whose id never occurs as a
first artist in the raw-payload log is in the claimed union (it is exactly
what `get_artists_missing_metadata` returns — a function `backfill_artists`
never calls) but the backfill loop iterates only over history artists, so
its fetch set is empty. -/
theorem backfill_missing_metadata_row_not_fetched :
    artistIdsToFetch [⟨"X", some "XN", none, none, some [], some 1, 0, 0, 0⟩]
        (get_artists_from_listening_history []) = [] ∧
    get_artists_missing_metadata [⟨"X", some "XN", none, none, some [], some 1, 0, 0, 0⟩]
      = ["X"] :=
  ⟨rfl, rfl⟩

theorem needsFetch_iff (db : List DBArtistRow)
    (hnd : (db.map (fun r => r.artist_id)).Nodup) (aid : String) :
    needsFetch db aid = true ↔
      aid ∉ db.map (fun r => r.artist_id) ∨ aid ∈ get_artists_missing_metadata db := by
  unfold needsFetch
  cases hf : findRow db aid with
  | none =>
    constructor
    · intro _
      left
      intro hmem
      obtain ⟨r, hr, hra⟩ := List.mem_map.mp hmem
      have := List.find?_eq_none.mp hf r hr
      simp [hra] at this
    · intro _; rfl
  | some row =>
    have hmem : row ∈ db := List.mem_of_find?_eq_some hf
    have hra : row.artist_id = aid := by simpa using List.find?_some hf
    constructor
    · intro h
      right
      unfold get_artists_missing_metadata
      exact List.mem_map.mpr ⟨row, List.mem_filter.mpr ⟨hmem, h⟩, hra⟩
    · intro h
      rcases h with h | h
      · exact absurd (List.mem_map.mpr ⟨row, hmem, hra⟩) h
      · unfold get_artists_missing_metadata at h
        obtain ⟨r2, hr2, hr2a⟩ := List.mem_map.mp h
        have hr2mem : r2 ∈ db := (List.mem_filter.mp hr2).1
        have hr2cond := (List.mem_filter.mp hr2).2
        have he : r2 = row :=
          List.inj_on_of_nodup_map hnd hr2mem hmem (by rw [hr2a, hra])
        rw [← he]
        exact hr2cond

/-- C3 (amended): assuming the table's key uniqueness, the backfill fetch
set is the *history-restricted* union — the historical first-artist ids
absent from the artists table, together with the historical first-artist ids
whose row is missing `image_url`, `genres` or `popularity`.  Null-metadata
rows not referenced in the history are not included. -/
theorem backfill_fetch_set_history_restricted_union
    (db : List DBArtistRow) (rawLog : List SpotifyResponse)
    (hnd : (db.map (fun r => r.artist_id)).Nodup) :
    (artistIdsToFetch db (get_artists_from_listening_history rawLog)).toFinset
      = (((get_artists_from_listening_history rawLog).map (fun p => p.2)).toFinset
          \ (db.map (fun r => r.artist_id)).toFinset)
        ∪ (((get_artists_from_listening_history rawLog).map (fun p => p.2)).toFinset
            ∩ (get_artists_missing_metadata db).toFinset) := by
  ext a
  simp only [List.mem_toFinset, Finset.mem_union, Finset.mem_sdiff, Finset.mem_inter]
  unfold artistIdsToFetch artistsToFetch
  constructor
  · intro h
    obtain ⟨p, hp', hpa⟩ := List.mem_map.mp h
    obtain ⟨hp, hnf⟩ := List.mem_filter.mp hp'
    subst hpa
    have hmemhist : p.2 ∈ (get_artists_from_listening_history rawLog).map (fun p => p.2) :=
      List.mem_map.mpr ⟨p, hp, rfl⟩
    rcases (needsFetch_iff db hnd p.2).mp hnf with hc | hc
    · exact Or.inl ⟨hmemhist, hc⟩
    · exact Or.inr ⟨hmemhist, hc⟩
  · intro h
    have key : ∀ p, p ∈ get_artists_from_listening_history rawLog → p.2 = a →
        needsFetch db a = true →
        a ∈ List.map (fun p => p.2)
          ((get_artists_from_listening_history rawLog).filter (fun p => needsFetch db p.2)) := by
      intro p hp hpa hnf
      exact List.mem_map.mpr ⟨p, List.mem_filter.mpr ⟨hp, by rw [hpa]; exact hnf⟩, hpa⟩
    rcases h with ⟨hmem, hnotin⟩ | ⟨hmem, hmiss⟩
    · obtain ⟨p, hp, hpa⟩ := List.mem_map.mp hmem
      exact key p hp hpa ((needsFetch_iff db hnd a).mpr (Or.inl hnotin))
    · obtain ⟨p, hp, hpa⟩ := List.mem_map.mp hmem
      exact key p hp hpa ((needsFetch_iff db hnd a).mpr (Or.inr hmiss))

theorem backfill_fetch_set_history_restricted_union_witness :
    (artistIdsToFetch [⟨"X", some "XN", none, none, some [], some 1, 0, 0, 0⟩]
        (get_artists_from_listening_history
          [⟨[⟨⟨none, none, none, none, [⟨some "A", some "AN"⟩], none⟩, some "t1", none⟩]⟩])).toFinset
      = (((get_artists_from_listening_history
            [⟨[⟨⟨none, none, none, none, [⟨some "A", some "AN"⟩], none⟩, some "t1", none⟩]⟩]).map
              (fun p => p.2)).toFinset
          \ ([⟨"X", some "XN", none, none, some [], some 1, 0, 0, 0⟩].map
              (fun r : DBArtistRow => r.artist_id)).toFinset)
        ∪ (((get_artists_from_listening_history
              [⟨[⟨⟨none, none, none, none, [⟨some "A", some "AN"⟩], none⟩, some "t1", none⟩]⟩]).map
                (fun p => p.2)).toFinset
            ∩ (get_artists_missing_metadata
                [⟨"X", some "XN", none, none, some [], some 1, 0, 0, 0⟩]).toFinset) :=
  backfill_fetch_set_history_restricted_union
    [⟨"X", some "XN", none, none, some [], some 1, 0, 0, 0⟩]
    [⟨[⟨⟨none, none, none, none, [⟨some "A", some "AN"⟩], none⟩, some "t1", none⟩]⟩]
    (by decide)

/-! ## Claim C9: dry-run performs reads only and previews the fetch set -/

/-- C9: a dry-run backfill performs the read-side computation (its output is
determined by the history extraction and the identifier diff) but performs no
side effect at all — no metadata fetch call, no store write, no commit — and
prints the computed fetch set capped at 20 entries, with a count of the
remaining members when there are more than 20. -/
theorem backfill_dry_run_no_fetch_no_write
    (oracle : List String → Except String (List ArtistObj)) (st : Store)
    (toFetch : List (String × String))
    (hto : toFetch = artistsToFetch st.artists
      (get_artists_from_listening_history (st.raw_history.map (fun e => e.payload)))) :
    (backfill_artists oracle true st).effects = [] ∧
    (toFetch ≠ [] →
      (backfill_artists oracle true st).output
        = ["[DRY RUN] Would fetch metadata for:"] ++
            (toFetch.take 20).map (previewLine st.artists) ++
            (if 20 < toFetch.length then
              ["  ... and " ++ toString (toFetch.length - 20) ++ " more"]
            else [])) ∧
    (toFetch = [] →
      (backfill_artists oracle true st).output = ["No artists need metadata. All good!"]) := by
  subst hto
  cases hc : artistsToFetch st.artists
      (get_artists_from_listening_history (st.raw_history.map (fun e => e.payload))) with
  | nil =>
    refine ⟨?_, fun hne => absurd rfl hne, fun _ => ?_⟩ <;>
      simp [backfill_artists, hc]
  | cons p ps =>
    refine ⟨?_, fun _ => ?_, fun he => by simp at he⟩ <;>
      simp [backfill_artists, hc]

theorem backfill_dry_run_no_fetch_no_write_witness :
    (backfill_artists (fun _ => Except.ok []) true
        ⟨[], [⟨0, ⟨[⟨⟨none, none, none, none, [⟨some "A", some "AN"⟩], none⟩, some "t1",
          none⟩]⟩⟩]⟩).effects = [] ∧
    (backfill_artists (fun _ => Except.ok []) true
        ⟨[], [⟨0, ⟨[⟨⟨none, none, none, none, [⟨some "A", some "AN"⟩], none⟩, some "t1",
          none⟩]⟩⟩]⟩).output
      = ["[DRY RUN] Would fetch metadata for:"] ++
          (([("AN", "A")] : List (String × String)).take 20).map (previewLine []) ++
          (if 20 < ([("AN", "A")] : List (String × String)).length then
            ["  ... and " ++ toString (([("AN", "A")] : List (String × String)).length - 20)
              ++ " more"]
          else []) :=
  ⟨(backfill_dry_run_no_fetch_no_write (fun _ => Except.ok [])
      ⟨[], [⟨0, ⟨[⟨⟨none, none, none, none, [⟨some "A", some "AN"⟩], none⟩, some "t1",
        none⟩]⟩⟩]⟩ [("AN", "A")] (by decide)).1,
   (backfill_dry_run_no_fetch_no_write (fun _ => Except.ok [])
      ⟨[], [⟨0, ⟨[⟨⟨none, none, none, none, [⟨some "A", some "AN"⟩], none⟩, some "t1",
        none⟩]⟩⟩]⟩ [("AN", "A")] (by decide)).2.1 (by decide)⟩

/-! ## Claim C7: last-wins dedup and idempotent play-event upsert -/

theorem mem_dedupLastWins {x : PlayEvent} :
    ∀ {l : List PlayEvent}, x ∈ dedupLastWins l → x ∈ l := by
  intro l
  induction l with
  | nil => intro h; exact absurd h (List.not_mem_nil x)
  | cons r rs ih =>
    intro h
    unfold dedupLastWins at h
    by_cases hany : rs.any (fun r2 => r2.played_at = r.played_at)
    · rw [if_pos hany] at h
      exact List.mem_cons_of_mem r (ih h)
    · rw [if_neg hany] at h
      rcases List.mem_cons.mp h with h1 | h2
      · exact h1 ▸ List.mem_cons_self r rs
      · exact List.mem_cons_of_mem r (ih h2)

theorem dedupLastWins_keys_nodup :
    ∀ l : List PlayEvent, ((dedupLastWins l).map (fun e => e.played_at)).Nodup := by
  intro l
  induction l with
  | nil => simp [dedupLastWins]
  | cons r rs ih =>
    unfold dedupLastWins
    by_cases hany : rs.any (fun r2 => r2.played_at = r.played_at)
    · rw [if_pos hany]; exact ih
    · rw [if_neg hany]
      rw [List.map_cons, List.nodup_cons]
      refine ⟨?_, ih⟩
      intro hmem
      obtain ⟨y, hy, hyk⟩ := List.mem_map.mp hmem
      have hyrs : y ∈ rs := mem_dedupLastWins hy
      exact hany (List.any_eq_true.mpr ⟨y, hyrs, by simp [hyk]⟩)

theorem find?_dedupLastWins (l : List PlayEvent) (k : String) :
    (dedupLastWins l).find? (fun e => e.played_at = k)
      = l.reverse.find? (fun e => e.played_at = k) := by
  induction l with
  | nil => rfl
  | cons r rs ih =>
    rw [List.reverse_cons, List.find?_append]
    unfold dedupLastWins
    by_cases hany : rs.any (fun r2 => r2.played_at = r.played_at)
    · rw [if_pos hany, ih]
      by_cases hk : r.played_at = k
      · obtain ⟨y, hy, hyk⟩ := List.any_eq_true.mp hany
        have hyk' : y.played_at = k := by
          have : y.played_at = r.played_at := by simpa using hyk
          rw [this, hk]
        have hsome : (rs.reverse.find? (fun e => e.played_at = k)).isSome := by
          rw [List.find?_isSome]
          exact ⟨y, List.mem_reverse.mpr hy, by simp [hyk']⟩
        cases hfs : rs.reverse.find? (fun e => e.played_at = k) with
        | none => rw [hfs] at hsome; simp at hsome
        | some z => rfl
      · cases hfs : rs.reverse.find? (fun e => e.played_at = k) with
        | none => simp [hk]
        | some z => rfl
    · rw [if_neg hany, List.find?_cons]
      by_cases hk : r.played_at = k
      · have hnone : rs.reverse.find? (fun e => e.played_at = k) = none := by
          rw [List.find?_eq_none]
          intro y hy
          intro hyk
          have hyk' : y.played_at = r.played_at := by
            have : y.played_at = k := by simpa using hyk
            rw [this, hk]
          exact hany (List.any_eq_true.mpr ⟨y, List.mem_reverse.mp hy, by simp [hyk']⟩)
        rw [hnone]
        simp [hk]
      · rw [ih]
        cases hfs : rs.reverse.find? (fun e => e.played_at = k) with
        | none => simp [hk]
        | some z => simp [hk]

theorem map_eq_self_of_forall {α : Type} (l : List α) (f : α → α)
    (h : ∀ a ∈ l, f a = a) : l.map f = l := by
  induction l with
  | nil => rfl
  | cons x xs ih =>
    rw [List.map_cons, h x (List.mem_cons_self x xs),
      ih (fun a ha => h a (List.mem_cons_of_mem x ha))]

theorem mem_upsertPlayEventOne {y : PlayEvent} (tbl : List PlayEvent) (row : PlayEvent)
    (h : y ∈ upsertPlayEventOne tbl row) :
    y = row ∨ (y ∈ tbl ∧ y.played_at ≠ row.played_at) := by
  unfold upsertPlayEventOne at h
  by_cases hany : tbl.any (fun r => r.played_at = row.played_at)
  · rw [if_pos hany] at h
    obtain ⟨z, hz, hzy⟩ := List.mem_map.mp h
    by_cases hzk : z.played_at = row.played_at
    · rw [if_pos hzk] at hzy
      exact Or.inl hzy.symm
    · rw [if_neg hzk] at hzy
      exact Or.inr ⟨hzy ▸ hz, hzy ▸ hzk⟩
  · rw [if_neg hany] at h
    rcases List.mem_append.mp h with h1 | h2
    · refine Or.inr ⟨h1, ?_⟩
      intro hk
      exact hany (List.any_eq_true.mpr ⟨y, h1, by simp [hk]⟩)
    · exact Or.inl (by simpa using h2)

theorem mem_upsertPlayEvents {y : PlayEvent} :
    ∀ (rows tbl : List PlayEvent), y ∈ upsertPlayEvents tbl rows →
      y ∈ rows ∨ y ∈ tbl := by
  intro rows
  induction rows with
  | nil => intro tbl h; exact Or.inr h
  | cons z rs ih =>
    intro tbl h
    rcases ih (upsertPlayEventOne tbl z) h with h1 | h2
    · exact Or.inl (List.mem_cons_of_mem z h1)
    · rcases mem_upsertPlayEventOne tbl z h2 with h3 | h4
      · exact Or.inl (h3 ▸ List.mem_cons_self z rs)
      · exact Or.inr h4.1

theorem upsertPlayEventOne_key_present (tbl : List PlayEvent) (row : PlayEvent) :
    (upsertPlayEventOne tbl row).any (fun r => r.played_at = row.played_at) = true := by
  unfold upsertPlayEventOne
  by_cases hany : tbl.any (fun r => r.played_at = row.played_at)
  · rw [if_pos hany]
    obtain ⟨z, hz, hzk⟩ := List.any_eq_true.mp hany
    refine List.any_eq_true.mpr ⟨row, ?_, by simp⟩
    refine List.mem_map.mpr ⟨z, hz, ?_⟩
    rw [if_pos (by simpa using hzk)]
  · rw [if_neg hany]
    exact List.any_eq_true.mpr ⟨row, List.mem_append.mpr (Or.inr (by simp)), by simp⟩

theorem upsertPlayEventOne_preserves_present (tbl : List PlayEvent) (row : PlayEvent)
    (k : String) (h : tbl.any (fun r => r.played_at = k) = true) :
    (upsertPlayEventOne tbl row).any (fun r => r.played_at = k) = true := by
  obtain ⟨y, hy, hyk⟩ := List.any_eq_true.mp h
  unfold upsertPlayEventOne
  by_cases hany : tbl.any (fun r => r.played_at = row.played_at)
  · rw [if_pos hany]
    by_cases hyr : y.played_at = row.played_at
    · refine List.any_eq_true.mpr ⟨row, List.mem_map.mpr ⟨y, hy, by rw [if_pos hyr]⟩, ?_⟩
      have : row.played_at = k := by rw [← hyr]; simpa using hyk
      simp [this]
    · exact List.any_eq_true.mpr ⟨y, List.mem_map.mpr ⟨y, hy, by rw [if_neg hyr]⟩, hyk⟩
  · rw [if_neg hany]
    exact List.any_eq_true.mpr ⟨y, List.mem_append.mpr (Or.inl hy), hyk⟩

theorem upsertPlayEvents_preserves_present :
    ∀ (rows tbl : List PlayEvent) (k : String),
      tbl.any (fun r => r.played_at = k) = true →
      (upsertPlayEvents tbl rows).any (fun r => r.played_at = k) = true := by
  intro rows
  induction rows with
  | nil => intro tbl k h; exact h
  | cons z rs ih =>
    intro tbl k h
    exact ih (upsertPlayEventOne tbl z) k (upsertPlayEventOne_preserves_present tbl z k h)

theorem upsertPlayEvents_key_present_of_mem :
    ∀ (rows tbl : List PlayEvent) (x : PlayEvent), x ∈ rows →
      (upsertPlayEvents tbl rows).any (fun r => r.played_at = x.played_at) = true := by
  intro rows
  induction rows with
  | nil => intro tbl x hx; exact absurd hx (List.not_mem_nil x)
  | cons z rs ih =>
    intro tbl x hx
    rcases List.mem_cons.mp hx with h1 | h2
    · subst h1
      exact upsertPlayEvents_preserves_present rs (upsertPlayEventOne tbl x) x.played_at
        (upsertPlayEventOne_key_present tbl x)
    · exact ih (upsertPlayEventOne tbl z) x h2

theorem upsertPlayEvents_value_unique :
    ∀ (rows tbl : List PlayEvent) (x : PlayEvent), x ∈ rows →
      ((rows.map (fun e => e.played_at)).Nodup) →
      ∀ y ∈ upsertPlayEvents tbl rows, y.played_at = x.played_at → y = x := by
  intro rows
  induction rows with
  | nil => intro tbl x hx; exact absurd hx (List.not_mem_nil x)
  | cons z rs ih =>
    intro tbl x hx hnd y hy hyk
    have hnd' : ((rs.map (fun e => e.played_at)).Nodup) := by
      rw [List.map_cons, List.nodup_cons] at hnd
      exact hnd.2
    have hznotin : z.played_at ∉ rs.map (fun e => e.played_at) := by
      rw [List.map_cons, List.nodup_cons] at hnd
      exact hnd.1
    rcases List.mem_cons.mp hx with h1 | h2
    · subst h1
      rcases mem_upsertPlayEvents rs (upsertPlayEventOne tbl x) hy with hcase | hcase
      · exact absurd (List.mem_map.mpr ⟨y, hcase, hyk⟩) (hyk ▸ hznotin)
      · rcases mem_upsertPlayEventOne tbl x hcase with h3 | h4
        · exact h3
        · exact absurd hyk h4.2
    · exact ih (upsertPlayEventOne tbl z) x h2 hnd' y hy hyk

theorem upsertPlayEvents_stable :
    ∀ (rows tbl : List PlayEvent),
      (∀ x ∈ rows, tbl.any (fun r => r.played_at = x.played_at) = true ∧
        (∀ y ∈ tbl, y.played_at = x.played_at → y = x)) →
      upsertPlayEvents tbl rows = tbl := by
  intro rows
  induction rows with
  | nil => intro tbl _; rfl
  | cons z rs ih =>
    intro tbl h
    obtain ⟨hany, hval⟩ := h z (List.mem_cons_self z rs)
    have hone : upsertPlayEventOne tbl z = tbl := by
      unfold upsertPlayEventOne
      rw [if_pos hany]
      refine map_eq_self_of_forall tbl _ ?_
      intro a ha
      by_cases hak : a.played_at = z.played_at
      · rw [if_pos hak]
        exact (hval a ha hak).symm
      · rw [if_neg hak]
    show upsertPlayEvents (upsertPlayEventOne tbl z) rs = tbl
    rw [hone]
    exact ih tbl (fun x hx => h x (List.mem_cons_of_mem z hx))

/-- C7: the transformer deduplicates by `played_at` with the last occurrence
in input order winning (lookup by key in the transform result equals lookup
in the reversed candidate-row list, and the transformed keys are pairwise
distinct), and upserting a transformed response twice yields exactly the
same stored play-event table as upserting it once. -/
theorem transform_dedup_last_wins_and_upsert_idempotent :
    (∀ r : SpotifyResponse,
      ((transformResponse r).map (fun e => e.played_at)).Nodup) ∧
    (∀ (r : SpotifyResponse) (k : String),
      (transformResponse r).find? (fun e => e.played_at = k)
        = (r.items.filterMap toPlayEvent).reverse.find? (fun e => e.played_at = k)) ∧
    (∀ (r : SpotifyResponse) (tbl : List PlayEvent),
      upsertPlayEvents (upsertPlayEvents tbl (transformResponse r)) (transformResponse r)
        = upsertPlayEvents tbl (transformResponse r)) := by
  refine ⟨fun r => dedupLastWins_keys_nodup _, fun r k => find?_dedupLastWins _ k, ?_⟩
  intro r tbl
  apply upsertPlayEvents_stable
  intro x hx
  constructor
  · exact upsertPlayEvents_key_present_of_mem _ tbl x hx
  · intro y hy hyk
    exact upsertPlayEvents_value_unique _ tbl x hx (dedupLastWins_keys_nodup _) y hy hyk

end SpotifyHistory
